import Mathlib

/-!
Verification development for the CKTV batch API tester
(`scripts/test-api.js`-style Node script, `src/unnamed/part_000`).

The script has three parts, each embedded below:

* `testApi` — one probe against one endpoint with a per-attempt abort timer
  and a bounded retry budget (lines 38–97 of the source);
* `runWithConcurrency` — a bounded-concurrency scheduler over async tasks
  (lines 102–121), embedded as an explicit event-loop simulation whose
  completion nondeterminism is an oracle parameter;
* the aggregation and report stage of `main` (lines 178–242).

JavaScript truthiness and `JSON.stringify` dropping `undefined` properties
are both load-bearing for the report-shape claims, so the embedding keeps a
small value type (`JSTruth`) distinguishing `undefined`, `null`, defined
falsy values and `true`.
-/

/-! ## Configuration (source lines 17–22) -/

structure Config where
  timeout : Nat
  concurrency : Nat
  retryCount : Nat
  testQuery : String

def CONFIG : Config :=
  { timeout := 8000, concurrency := 10, retryCount := 1, testQuery := "?ac=list" }

/-! ## JavaScript value shapes needed by the probe

`data` is the JSON body returned by `response.json()`.  The script computes
`hasData = data && data.list && Array.isArray(data.list)`, so the cases that
matter are: the body being falsy (null or a falsy primitive), the body being
truthy but having no `list` property (the chain yields `undefined`), and the
`list` property being null, a falsy primitive, a truthy non-array, or an
array of some length. -/

inductive ListField
  | lnull
  | lfalsy
  | lnonArray
  | larr (n : Nat)
deriving DecidableEq, Repr

inductive JsonData
  | jnull
  | jfalsy
  | jnoList
  | jlist (lf : ListField)
deriving DecidableEq, Repr

/-- Truthiness lattice of the values the `&&` chains in the script can
produce: `jundef` (undefined — dropped by `JSON.stringify`), `jnull`
(null — kept by `JSON.stringify`), `jfalsy` (a defined falsy value such as
`false`, `0` or the empty string), `jtrue` (a truthy result). -/
inductive JSTruth
  | jundef
  | jnull
  | jfalsy
  | jtrue
deriving DecidableEq, Repr

def JSTruth.toBool : JSTruth → Bool
  | .jtrue => true
  | _ => false

/-- `data && data.list && Array.isArray(data.list)` (source line 58). -/
def hasDataOf : JsonData → JSTruth
  | .jnull => .jnull
  | .jfalsy => .jfalsy
  | .jnoList => .jundef
  | .jlist .lnull => .jnull
  | .jlist .lfalsy => .jfalsy
  | .jlist .lnonArray => .jfalsy
  | .jlist (.larr _) => .jtrue

/-- `const count = hasData ? data.list.length : 0` (source line 59);
`hasData` is truthy exactly in the array case. -/
def countOf : JsonData → Nat
  | .jlist (.larr n) => n
  | _ => 0

/-- `hasValidData: hasData && count > 0` (source line 68): if `hasData` is
falsy the chain yields `hasData` itself, otherwise the boolean
`count > 0`. -/
def hasValidDataOf (d : JsonData) : JSTruth :=
  match hasDataOf d with
  | .jtrue => if 0 < countOf d then .jtrue else .jfalsy
  | t => t

/-! ## One probe attempt

Each attempt either resolves with a response or throws.  The script only
inspects `error.name` (to recognize the abort timer) and `error.message`,
so a thrown error is modelled by those two strings; the timer firing
surfaces as an error named `AbortError`.  A 2xx response whose body fails
to parse throws from `response.json()` inside the same `try`, landing in
the same `catch` (with name `SyntaxError` in practice).  `elapsed` is the
value `Date.now() - startTime` takes at the point in that call where the
returned record is built. -/

inductive BodyParse
  | parseFail (errName errMsg : String)
  | parsed (data : JsonData)
deriving DecidableEq, Repr

inductive AttemptEv
  | caught (errName errMsg : String)
  | resp (status : Nat) (body : BodyParse)
deriving DecidableEq, Repr

structure Attempt where
  ev : AttemptEv
  elapsed : Nat
deriving DecidableEq, Repr

/-- `response.ok`: HTTP status in [200, 300). -/
def respOk (st : Nat) : Bool := decide (200 ≤ st) && decide (st < 300)

/-- Result record returned by `testApi` (source lines 61–69, 71–78,
89–95).  Fields that some branches leave unset (`undefined` in JS) are
`Option`s with `none` for absent; `hasValidData` keeps its JS truthiness
value, with `.jundef` for absent. -/
structure ApiResult where
  key : String
  api : String
  status : String
  httpCode : Option Nat
  time : Nat
  dataCount : Option Nat
  hasValidData : JSTruth
  error : Option String
deriving DecidableEq, Repr

/-- The success-branch record (source lines 61–69). -/
def successResult (key apiUrl : String) (st : Nat) (elapsed : Nat) (data : JsonData) :
    ApiResult :=
  { key := key, api := apiUrl, status := "success", httpCode := some st, time := elapsed,
    dataCount := some (countOf data), hasValidData := hasValidDataOf data, error := none }

/-- The non-2xx branch record (source lines 71–78). -/
def httpErrorResult (key apiUrl : String) (st : Nat) (elapsed : Nat) : ApiResult :=
  { key := key, api := apiUrl, status := "http_error", httpCode := some st, time := elapsed,
    dataCount := none, hasValidData := .jundef,
    error := some ("HTTP " ++ toString st) }

/-- The catch-branch record (source lines 89–95): status `error`, message
`超时` when the error is the abort timer, the thrown message otherwise. -/
def catchResult (key apiUrl : String) (errName errMsg : String) (elapsed : Nat) : ApiResult :=
  { key := key, api := apiUrl, status := "error", httpCode := none, time := elapsed,
    dataCount := none, hasValidData := .jundef,
    error := some (if errName = "AbortError" then "超时" else errMsg) }

/-- `testApi` (source lines 38–97), instrumented with the number of
attempts actually performed (second component).  `env j` is the behavior
of the j-th attempt; `ix` is the index of the current attempt.  Each
recursive call restarts `startTime`, so every terminal record reports the
elapsed time of its own attempt only.  The retry test mirrors
`retries > 0 && error.name !== 'AbortError'` (source line 85). -/
def testApiGo (key apiUrl : String) (env : Nat → Attempt) (ix : Nat) (retries : Nat) :
    ApiResult × Nat :=
  let a := env ix
  match a.ev with
  | .resp st body =>
    if respOk st then
      match body with
      | .parsed data => (successResult key apiUrl st a.elapsed data, 1)
      | .parseFail errName errMsg =>
        match retries with
        | r + 1 =>
          if errName = "AbortError" then (catchResult key apiUrl errName errMsg a.elapsed, 1)
          else
            let p := testApiGo key apiUrl env (ix + 1) r
            (p.1, p.2 + 1)
        | 0 => (catchResult key apiUrl errName errMsg a.elapsed, 1)
    else (httpErrorResult key apiUrl st a.elapsed, 1)
  | .caught errName errMsg =>
    match retries with
    | r + 1 =>
      if errName = "AbortError" then (catchResult key apiUrl errName errMsg a.elapsed, 1)
      else
        let p := testApiGo key apiUrl env (ix + 1) r
        (p.1, p.2 + 1)
    | 0 => (catchResult key apiUrl errName errMsg a.elapsed, 1)

/-- `testApi(key, apiUrl, retries)`: the returned record. -/
def testApi (key apiUrl : String) (env : Nat → Attempt) (retries : Nat) : ApiResult :=
  (testApiGo key apiUrl env 0 retries).1

/-- Number of attempts `testApi` performs. -/
def testApiAttempts (key apiUrl : String) (env : Nat → Attempt) (retries : Nat) : Nat :=
  (testApiGo key apiUrl env 0 retries).2

/-! ## Bounded-concurrency scheduler (source lines 102–121)

`runWithConcurrency` dispatches each task immediately (calling `task()`
starts the probe), pushes the resulting promise into `results` at the
position of the task, adds it to the `executing` set, and whenever the set
has reached `concurrency` awaits `Promise.race(executing)`; each promise
removes itself from the set when it settles.  Finally `Promise.all`
drains the remaining promises and yields the values in array position
order.

The embedding is the standard event-loop simulation: the single thread
only observes completions at its `await` points, and which in-flight task
settles at an `await` is nondeterministic, supplied by an `oracle`
parameter.  (`Promise.race` may be overtaken by several settlements
before the loop resumes; completing exactly one per wait is the adversarial
maximum for the in-flight count and composes to the same final slots, so
it is the case proved about.)  The state records:

* `executing` — the in-flight tasks, as (original index, resolution value);
* `results` — the promise slots, pre-sized to the task count, `none` until
  the slot's task settles (in JS the array grows as promises are pushed;
  positions are identical);
* `trace` — the size of the in-flight set after every change, the counter
  the spec says the admission invariant is instrumentable with. -/

structure SimSt (β : Type) where
  executing : List (Nat × β)
  results : List (Option β)
  trace : List Nat

/-- Remove and return the k-th element of a list. -/
def pickOut : List α → Nat → Option (α × List α)
  | [], _ => none
  | x :: xs, 0 => some (x, xs)
  | x :: xs, k + 1 =>
    match pickOut xs k with
    | none => none
    | some (y, ys) => some (y, x :: ys)

/-- One settlement: the oracle-chosen in-flight task leaves `executing`
and resolves its `results` slot (the `.then` handler at source lines
107–110 plus the promise resolution).  No-op on an empty set. -/
def complete {β : Type} (p : Nat) (s : SimSt β) : SimSt β :=
  match pickOut s.executing (p % s.executing.length) with
  | none => s
  | some (x, rest) =>
    { executing := rest, results := s.results.set x.1 (some x.2),
      trace := s.trace ++ [rest.length] }

/-- `await Promise.all(results)` (source line 120): wait until every
in-flight task has settled.  `fuel` is instantiated with the in-flight
count. -/
def drain {β : Type} (fuel : Nat) (oracle : List Nat) (s : SimSt β) : SimSt β :=
  match fuel with
  | 0 => s
  | f + 1 => drain f oracle.tail (complete (oracle.headD 0) s)

/-- Dispatch of one task (source lines 107–113): `task()` starts it,
`results.push(promise)` fixes its slot, `executing.add(promise)` grows the
in-flight set. -/
def dispatch {β : Type} (t : Nat × β) (s : SimSt β) : SimSt β :=
  { executing := s.executing ++ [t], results := s.results,
    trace := s.trace ++ [s.executing.length + 1] }

/-- The `for (const task of tasks)` loop (source lines 106–118): dispatch,
then if `executing.size >= concurrency` await one settlement
(`Promise.race`); after the loop, drain (`Promise.all`). -/
def schedLoop {β : Type} (C : Nat) (pend : List (Nat × β)) (oracle : List Nat)
    (s : SimSt β) : SimSt β :=
  match pend with
  | [] => drain s.executing.length oracle s
  | t :: rest =>
    let s1 := dispatch t s
    if C ≤ s1.executing.length then
      schedLoop C rest oracle.tail (complete (oracle.headD 0) s1)
    else
      schedLoop C rest oracle s1

/-- Pair each task with its submission index (in JS the index is implicit
in the array position of the pushed promise). -/
def enumF (k : Nat) : List β → List (Nat × β)
  | [] => []
  | x :: xs => (k, x) :: enumF (k + 1) xs

/-- Full scheduler state after `runWithConcurrency(tasks, concurrency)`
under completion oracle `oracle`; a task is identified with the value its
promise resolves to. -/
def schedRun {β : Type} (C : Nat) (tasks : List β) (oracle : List Nat) : SimSt β :=
  schedLoop C (enumF 0 tasks) oracle
    { executing := [], results := List.replicate tasks.length none, trace := [] }

/-- `runWithConcurrency` (source lines 102–121): the value of
`Promise.all(results)` — the resolved slots in array order. -/
def runWithConcurrency {β : Type} (tasks : List β) (C : Nat) (oracle : List Nat) :
    List (Option β) :=
  (schedRun C tasks oracle).results

/-- Every recorded in-flight count is at most `C`. -/
def traceBounded {β : Type} (C : Nat) (s : SimSt β) : Bool :=
  s.trace.all (fun x => decide (x ≤ C))

/-! ## Aggregation and report (source lines 150–242)

Each task wraps `testApi` and returns `{ ...result, name: site.name }`
(source line 167). -/

structure NamedResult extends ApiResult where
  name : String
deriving DecidableEq, Repr

/-- `{ ...result, name: site.name }` (source line 167): the task returns
the probe outcome extended with the display name. -/
def namedOf (r : ApiResult) (nm : String) : NamedResult :=
  { toApiResult := r, name := nm }

/-- `r.status === 'success' && r.hasValidData` (source line 178). -/
def isSuccessful (r : NamedResult) : Bool :=
  r.status == "success" && r.hasValidData.toBool

/-- `r.status === 'success' && !r.hasValidData` (source line 179). -/
def isNoData (r : NamedResult) : Bool :=
  r.status == "success" && !r.hasValidData.toBool

/-- `r.status !== 'success'` (source line 180). -/
def isFailed (r : NamedResult) : Bool :=
  !(r.status == "success")

/-- Stable insertion of one element into a list ascending by `time`. -/
def insertByTime (x : NamedResult) : List NamedResult → List NamedResult
  | [] => [x]
  | y :: ys => if x.time ≤ y.time then x :: y :: ys else y :: insertByTime x ys

/-- `successful.sort((a, b) => a.time - b.time)` (source line 211): a
stable ascending sort by elapsed time.  JS `Array.sort` reorders the
`successful` array in place; it is a fresh array produced by `filter`, so
the model sorts a copy. -/
def sortByTime : List NamedResult → List NamedResult
  | [] => []
  | x :: xs => insertByTime x (sortByTime xs)

/-- One entry of `report.results` (source lines 228–238).  `httpCode`,
`dataCount` and `error` are `undefined` on the records whose `testApi`
branch did not set them, and `JSON.stringify` drops `undefined`
properties, so `none` / `.jundef` means the field is absent from the
persisted document. -/
structure ReportEntry where
  key : String
  name : String
  api : String
  status : String
  httpCode : Option Nat
  timeMs : Nat
  dataCount : Option Nat
  hasValidData : JSTruth
  error : Option String
deriving DecidableEq, Repr

structure Report where
  testTime : String
  totalApis : Nat
  successCount : Nat
  noDataCount : Nat
  failedCount : Nat
  totalTimeMs : Nat
  results : List ReportEntry
deriving DecidableEq, Repr

def mkEntry (r : NamedResult) : ReportEntry :=
  { key := r.key, name := r.name, api := r.api, status := r.status, httpCode := r.httpCode,
    timeMs := r.time, dataCount := r.dataCount, hasValidData := r.hasValidData,
    error := r.error }

/-- The report object (source lines 221–239). -/
def buildReport (testTime : String) (totalTime : Nat) (results : List NamedResult) :
    Report :=
  { testTime := testTime, totalApis := results.length,
    successCount := (results.filter isSuccessful).length,
    noDataCount := (results.filter isNoData).length,
    failedCount := (results.filter isFailed).length,
    totalTimeMs := totalTime,
    results := results.map mkEntry }

/-- The tail of `main` (source lines 178–242): bucket the outcomes,
produce the display-only latency ordering of the successful bucket
(source lines 210–214), then build the report from `results`.  Returns
the display ordering alongside the report. -/
def aggregateAndDisplay (testTime : String) (totalTime : Nat)
    (results : List NamedResult) : List NamedResult × Report :=
  let successful := results.filter isSuccessful
  let display := sortByTime successful
  (display, buildReport testTime totalTime results)

/-- A field that is `undefined` (here: `none`) is dropped by
`JSON.stringify`, hence absent from the persisted report document. -/
def optPresent (o : Option Nat) : Bool := o.isSome

/-- `hasValidData` is persisted unless its value is `undefined`. -/
def truthPresent : JSTruth → Bool
  | .jundef => false
  | _ => true

/-- Whether an attempt throws a retriable (non-abort) error: a transport
failure, or a parse failure on a 2xx response (both land in the same
`catch` with a non-`AbortError` name). -/
def transientAt (env : Nat → Attempt) (j : Nat) : Prop :=
  match (env j).ev with
  | .caught errName _ => errName ≠ "AbortError"
  | .resp st (.parseFail errName _) => respOk st = true ∧ errName ≠ "AbortError"
  | _ => False

/-- The thrown message of an attempt (empty for non-throwing events). -/
def attemptMsg : AttemptEv → String
  | .caught _ m => m
  | .resp _ (.parseFail _ m) => m
  | _ => ""

/-- Attempt environment where the first attempt fails with a transport
error after 100 ms and the retry succeeds after 5 ms. -/
def env1 : Nat → Attempt := fun ix =>
  match ix with
  | 0 => { ev := .caught "TypeError" "fetch failed", elapsed := 100 }
  | _ => { ev := .resp 200 (.parsed (.jlist (.larr 3))), elapsed := 5 }

/-- Attempt environment that always returns HTTP 404. -/
def env404 : Nat → Attempt := fun _ =>
  { ev := .resp 404 (.parsed .jnull), elapsed := 30 }

/-- Attempt environment that always returns HTTP 200 with body `null`. -/
def envNull : Nat → Attempt := fun _ =>
  { ev := .resp 200 (.parsed .jnull), elapsed := 12 }

/-- Attempt environment where every attempt throws a connection reset. -/
def envReset : Nat → Attempt := fun _ =>
  { ev := .caught "TypeError" "socket hang up", elapsed := 7 }

/-- Attempt environment where every attempt is canceled by the abort
timer after the configured 8000 ms. -/
def envTimeout : Nat → Attempt := fun _ =>
  { ev := .caught "AbortError" "This operation was aborted", elapsed := CONFIG.timeout }

/-! ## Probe-executor theorems -/

/-- Every call performs at least one attempt. -/
theorem testApiGo_attempts_pos (key apiUrl : String) (env : Nat → Attempt) :
    ∀ (retries ix : Nat), 1 ≤ (testApiGo key apiUrl env ix retries).2 := by
  intro retries
  induction retries with
  | zero =>
    intro ix
    rw [testApiGo.eq_def]
    rcases hev : (env ix).ev with ⟨n, m⟩ | ⟨st, body⟩
    · simp [hev]
    · rcases body with ⟨n, m⟩ | d <;> by_cases hok : respOk st <;>
        simp [hev, hok]
  | succ r ih =>
    intro ix
    rw [testApiGo.eq_def]
    rcases hev : (env ix).ev with ⟨n, m⟩ | ⟨st, body⟩
    · by_cases hab : n = "AbortError" <;> simp [hev, hab]
    · rcases body with ⟨n, m⟩ | d
      · by_cases hok : respOk st <;> by_cases hab : n = "AbortError" <;>
          simp [hev, hok, hab]
      · by_cases hok : respOk st <;> simp [hev, hok]

/-- C2: an attempt canceled by the abort timer is terminal.  From any
attempt whose event is an `AbortError`, the probe is classified as a
timeout — status `error` with the timeout message `超时` — and exactly one
attempt is performed from that point, whatever the remaining retry
budget. -/
theorem testApi_timeout_terminal (key apiUrl : String) (env : Nat → Attempt)
    (ix retries : Nat) (msg : String) (h : (env ix).ev = .caught "AbortError" msg) :
    (testApiGo key apiUrl env ix retries).1.status = "error" ∧
    (testApiGo key apiUrl env ix retries).1.error = some "超时" ∧
    (testApiGo key apiUrl env ix retries).2 = 1 := by
  cases retries <;> (rw [testApiGo.eq_def]; simp [h, catchResult])

/-- C2 witness: a probe whose first attempt times out, run with the
default retry budget, reports the timeout classification after exactly one
attempt. -/
theorem testApi_timeout_terminal_witness :
    (envTimeout 0).ev = .caught "AbortError" "This operation was aborted" ∧
    ((testApiGo "k" "http:a" envTimeout 0 CONFIG.retryCount).1.status = "error" ∧
     (testApiGo "k" "http:a" envTimeout 0 CONFIG.retryCount).1.error = some "超时" ∧
     (testApiGo "k" "http:a" envTimeout 0 CONFIG.retryCount).2 = 1) :=
  ⟨rfl, testApi_timeout_terminal "k" "http:a" envTimeout 0 CONFIG.retryCount
    "This operation was aborted" rfl⟩

/-- C8: a response with a non-2xx status is terminal on first occurrence:
the probe is classified `http_error`, the outcome carries the numeric
status and the message `HTTP <status>`, and exactly one attempt is
performed from that point, whatever the remaining retry budget. -/
theorem testApi_http_error_no_retry (key apiUrl : String) (env : Nat → Attempt)
    (ix retries st : Nat) (body : BodyParse)
    (h : (env ix).ev = .resp st body) (hok : respOk st = false) :
    (testApiGo key apiUrl env ix retries).1.status = "http_error" ∧
    (testApiGo key apiUrl env ix retries).1.httpCode = some st ∧
    (testApiGo key apiUrl env ix retries).1.error = some ("HTTP " ++ toString st) ∧
    (testApiGo key apiUrl env ix retries).2 = 1 := by
  cases retries <;> (rw [testApiGo.eq_def]; simp [h, hok, httpErrorResult])

/-- C8 witness: a 404 response with a positive retry budget yields
`http_error` with status 404 after exactly one attempt. -/
theorem testApi_http_error_no_retry_witness :
    ((fun _ => ({ ev := .resp 404 (.parsed .jnull), elapsed := 30 } : Attempt)) 0).ev
        = .resp 404 (.parsed .jnull) ∧
    respOk 404 = false ∧
    ((testApiGo "k" "http:a" (fun _ => { ev := .resp 404 (.parsed .jnull), elapsed := 30 })
        0 2).1.status = "http_error" ∧
     (testApiGo "k" "http:a" (fun _ => { ev := .resp 404 (.parsed .jnull), elapsed := 30 })
        0 2).1.httpCode = some 404 ∧
     (testApiGo "k" "http:a" (fun _ => { ev := .resp 404 (.parsed .jnull), elapsed := 30 })
        0 2).1.error = some ("HTTP " ++ toString 404) ∧
     (testApiGo "k" "http:a" (fun _ => { ev := .resp 404 (.parsed .jnull), elapsed := 30 })
        0 2).2 = 1) :=
  ⟨rfl, by decide,
   testApi_http_error_no_retry "k" "http:a"
     (fun _ => { ev := .resp 404 (.parsed .jnull), elapsed := 30 }) 0 2 404
     (.parsed .jnull) rfl (by decide)⟩

/-- C10: a 2xx response whose body parses but has no array-valued `list`
field is classified as a success with zero items and falsy
`hasValidData`, i.e. it lands in the no-data bucket, not among the
failures, after exactly one attempt. -/
theorem testApi_success_without_list (key apiUrl : String) (env : Nat → Attempt)
    (ix retries st : Nat) (d : JsonData)
    (h : (env ix).ev = .resp st (.parsed d)) (hok : respOk st = true)
    (hnl : ∀ n, d ≠ JsonData.jlist (ListField.larr n)) :
    (testApiGo key apiUrl env ix retries).1.status = "success" ∧
    (testApiGo key apiUrl env ix retries).1.dataCount = some 0 ∧
    ((testApiGo key apiUrl env ix retries).1.hasValidData).toBool = false ∧
    (testApiGo key apiUrl env ix retries).2 = 1 ∧
    (∀ nm : String,
      isNoData (namedOf (testApiGo key apiUrl env ix retries).1 nm)
        = true ∧
      isFailed (namedOf (testApiGo key apiUrl env ix retries).1 nm)
        = false) := by
  have hcount : countOf d = 0 := by
    rcases d with _ | _ | _ | lf
    · rfl
    · rfl
    · rfl
    · rcases lf with _ | _ | _ | n
      · rfl
      · rfl
      · rfl
      · exact absurd rfl (hnl n)
  have hvd : (hasValidDataOf d).toBool = false := by
    rcases d with _ | _ | _ | lf
    · rfl
    · rfl
    · rfl
    · rcases lf with _ | _ | _ | n
      · rfl
      · rfl
      · rfl
      · exact absurd rfl (hnl n)
  cases retries <;>
    (rw [testApiGo.eq_def];
     simp [h, hok, successResult, hcount, hvd, namedOf, isNoData, isFailed])

/-- C10 witness: a 200 response whose body is JSON `null` is a success
with zero items, classified into the no-data bucket. -/
theorem testApi_success_without_list_witness :
    (envNull 0).ev = .resp 200 (.parsed .jnull) ∧
    respOk 200 = true ∧
    (∀ n, JsonData.jnull ≠ JsonData.jlist (ListField.larr n)) ∧
    ((testApiGo "k" "http:a" envNull 0 1).1.status = "success" ∧
     (testApiGo "k" "http:a" envNull 0 1).1.dataCount = some 0 ∧
     ((testApiGo "k" "http:a" envNull 0 1).1.hasValidData).toBool = false ∧
     (testApiGo "k" "http:a" envNull 0 1).2 = 1 ∧
     (∀ nm : String,
       isNoData (namedOf (testApiGo "k" "http:a" envNull 0 1).1 nm)
         = true ∧
       isFailed (namedOf (testApiGo "k" "http:a" envNull 0 1).1 nm)
         = false)) :=
  ⟨rfl, by decide, fun n hc => JsonData.noConfusion hc,
   testApi_success_without_list "k" "http:a" envNull 0 1 200 .jnull
     rfl (by decide) (fun n hc => JsonData.noConfusion hc)⟩

/-- C3: a probe whose every attempt throws a retriable (non-abort) error —
a transport failure or a parse failure on a 2xx response — is re-issued
once per unit of retry budget: it performs exactly `retries + 1` attempts,
is then classified `error` (the NetworkError category), and carries the
message of the last attempt.  Since the attempt count is exactly
`retries + 1`, `testApi` terminates for every retry budget. -/
theorem testApi_transient_exhausts_retries (key apiUrl : String) (env : Nat → Attempt) :
    ∀ (retries ix : Nat), (∀ j, j ≤ retries → transientAt env (ix + j)) →
      (testApiGo key apiUrl env ix retries).2 = retries + 1 ∧
      (testApiGo key apiUrl env ix retries).1.status = "error" ∧
      (testApiGo key apiUrl env ix retries).1.error =
        some (attemptMsg (env (ix + retries)).ev) := by
  intro retries
  induction retries with
  | zero =>
    intro ix h
    have h0 := h 0 (Nat.le_refl 0)
    rw [testApiGo.eq_def]
    rcases hev : (env ix).ev with ⟨n, m⟩ | ⟨st, body⟩
    · simp only [transientAt, Nat.add_zero, hev] at h0
      simp [hev, catchResult, attemptMsg, h0]
    · rcases body with ⟨n, m⟩ | d
      · simp only [transientAt, Nat.add_zero, hev] at h0
        simp [hev, h0.1, catchResult, attemptMsg, h0.2]
      · simp only [transientAt, Nat.add_zero, hev] at h0
  | succ r ih =>
    intro ix h
    have h0 := h 0 (Nat.zero_le _)
    have hshift : ∀ j, j ≤ r → transientAt env (ix + 1 + j) := by
      intro j hj
      have := h (j + 1) (Nat.succ_le_succ hj)
      have hix : ix + (j + 1) = ix + 1 + j := by omega
      rwa [hix] at this
    have hr := ih (ix + 1) hshift
    rw [testApiGo.eq_def]
    rcases hev : (env ix).ev with ⟨n, m⟩ | ⟨st, body⟩
    · simp only [transientAt, Nat.add_zero, hev] at h0
      have hix2 : ix + 1 + r = ix + (r + 1) := by omega
      rw [hix2] at hr
      simp [hev, h0, hr.1, hr.2.1, hr.2.2]
    · rcases body with ⟨n, m⟩ | d
      · simp only [transientAt, Nat.add_zero, hev] at h0
        have hix2 : ix + 1 + r = ix + (r + 1) := by omega
        rw [hix2] at hr
        simp [hev, h0.1, h0.2, hr.1, hr.2.1, hr.2.2]
      · simp only [transientAt, Nat.add_zero, hev] at h0

/-- C3 witness: with a budget of 2 retries and every attempt resetting
the connection, the probe performs 3 attempts and ends as a network
error carrying the last message. -/
theorem testApi_transient_exhausts_retries_witness :
    (∀ j, j ≤ 2 → transientAt envReset (0 + j)) ∧
    ((testApiGo "k" "http:a" envReset 0 2).2 = 2 + 1 ∧
     (testApiGo "k" "http:a" envReset 0 2).1.status = "error" ∧
     (testApiGo "k" "http:a" envReset 0 2).1.error =
       some (attemptMsg (envReset (0 + 2)).ev)) :=
  ⟨fun j _ => by simp [transientAt, envReset],
   testApi_transient_exhausts_retries "k" "http:a" envReset 2 0
     (fun j _ => by simp [transientAt, envReset])⟩

/-- C1 counterexample: on `env1` (first attempt a 100 ms transport error,
retry a 5 ms success) with one retry, the reported `time` is 5 ms — the
duration of the last attempt alone — not the 105 ms span from the start
of the first attempt to terminal classification, because `startTime` is
reset by the recursive call.  The spec-claimed inclusive elapsed time is
therefore false. -/
theorem testApi_elapsed_excludes_retries :
    testApiAttempts "k" "http:a" env1 1 = 2 ∧
    (testApi "k" "http:a" env1 1).time = 5 ∧
    ¬ (testApi "k" "http:a" env1 1).time = 100 + 5 := by
  refine ⟨?_, ?_, ?_⟩ <;> decide

/-- C1 (amended): the `time` reported by a probe equals the elapsed time
of the final attempt only — attempt `ix + attempts - 1` — because each
retry restarts the clock; durations of earlier attempts are not
included. -/
theorem testApi_time_is_last_attempt (key apiUrl : String) (env : Nat → Attempt) :
    ∀ (retries ix : Nat),
      (testApiGo key apiUrl env ix retries).1.time =
        (env (ix + ((testApiGo key apiUrl env ix retries).2 - 1))).elapsed := by
  intro retries
  induction retries with
  | zero =>
    intro ix
    rw [testApiGo.eq_def]
    rcases hev : (env ix).ev with ⟨n, m⟩ | ⟨st, body⟩
    · simp [hev, catchResult]
    · rcases body with ⟨n, m⟩ | d <;> by_cases hok : respOk st <;>
        simp [hev, hok, catchResult, successResult, httpErrorResult]
  | succ r ih =>
    intro ix
    rw [testApiGo.eq_def]
    rcases hev : (env ix).ev with ⟨n, m⟩ | ⟨st, body⟩
    · by_cases hab : n = "AbortError"
      · simp [hev, hab, catchResult]
      · have hpos := testApiGo_attempts_pos key apiUrl env r (ix + 1)
        simp only [hev, hab, if_false, ite_false]
        simp only [Nat.add_sub_cancel]
        have hix : ix + (testApiGo key apiUrl env (ix + 1) r).2
            = ix + 1 + ((testApiGo key apiUrl env (ix + 1) r).2 - 1) := by omega
        rw [hix]
        exact ih (ix + 1)
    · rcases body with ⟨n, m⟩ | d
      · by_cases hok : respOk st
        · by_cases hab : n = "AbortError"
          · simp [hev, hok, hab, catchResult]
          · have hpos := testApiGo_attempts_pos key apiUrl env r (ix + 1)
            simp only [hev, hok, hab, if_true, if_false, ite_false, ite_true]
            simp only [Nat.add_sub_cancel]
            have hix : ix + (testApiGo key apiUrl env (ix + 1) r).2
                = ix + 1 + ((testApiGo key apiUrl env (ix + 1) r).2 - 1) := by omega
            rw [hix]
            exact ih (ix + 1)
        · simp [hev, hok, httpErrorResult]
      · by_cases hok : respOk st <;>
          simp [hev, hok, successResult, httpErrorResult]

/-- C9 counterexample: the persisted entry for a Timeout outcome carries
neither `dataCount` nor `hasValidData` — both are `undefined` in the
record `testApi` returns from its catch branch, and `JSON.stringify`
drops `undefined` properties — contradicting the claim that `itemCount`
and `hasUsableData` are present for every outcome. -/
theorem report_entry_drops_fields_on_timeout :
    (testApi "k" "http:a" envTimeout 1).status = "error" ∧
    optPresent (mkEntry
      (namedOf (testApi "k" "http:a" envTimeout 1) "站点")).dataCount
      = false ∧
    truthPresent (mkEntry
      (namedOf (testApi "k" "http:a" envTimeout 1) "站点")).hasValidData
      = false := by
  refine ⟨?_, ?_, ?_⟩ <;> decide

/-- C9 (amended): in the persisted report entry of every probe outcome,
`dataCount` is present exactly when the outcome status is `success`, and
for every non-success outcome (`http_error` and `error`, i.e. HttpError,
Timeout and NetworkError) `hasValidData` is likewise absent while
`error` is present.  (`key`, `name`, `api`, `status` and `timeMs` are
unconditionally present by construction.) -/
theorem report_fields_track_status (key apiUrl : String) (env : Nat → Attempt) :
    ∀ (retries ix : Nat) (nm : String),
      (optPresent (mkEntry (namedOf (testApiGo key apiUrl env ix retries).1 nm)).dataCount
        = ((testApiGo key apiUrl env ix retries).1.status == "success")) ∧
      ((testApiGo key apiUrl env ix retries).1.status ≠ "success" →
        truthPresent (mkEntry (namedOf (testApiGo key apiUrl env ix retries).1 nm)).hasValidData = false ∧
        ((mkEntry (namedOf (testApiGo key apiUrl env ix retries).1 nm)).error).isSome = true) := by
  intro retries
  induction retries with
  | zero =>
    intro ix nm
    rw [testApiGo.eq_def]
    rcases hev : (env ix).ev with ⟨n, m⟩ | ⟨st, body⟩
    · simp [hev, catchResult, namedOf, mkEntry, optPresent, truthPresent]
    · rcases body with ⟨n, m⟩ | d <;> by_cases hok : respOk st <;>
        simp [hev, hok, catchResult, successResult, httpErrorResult, namedOf, mkEntry,
          optPresent, truthPresent]
  | succ r ih =>
    intro ix nm
    rw [testApiGo.eq_def]
    rcases hev : (env ix).ev with ⟨n, m⟩ | ⟨st, body⟩
    · by_cases hab : n = "AbortError"
      · simp [hev, hab, catchResult, namedOf, mkEntry, optPresent, truthPresent]
      · simpa [hev, hab] using ih (ix + 1) nm
    · rcases body with ⟨n, m⟩ | d
      · by_cases hok : respOk st
        · by_cases hab : n = "AbortError"
          · simp [hev, hok, hab, catchResult, namedOf, mkEntry, optPresent, truthPresent]
          · simpa [hev, hok, hab] using ih (ix + 1) nm
        · simp [hev, hok, httpErrorResult, namedOf, mkEntry, optPresent, truthPresent]
      · by_cases hok : respOk st <;>
          simp [hev, hok, successResult, httpErrorResult, namedOf, mkEntry, optPresent,
            truthPresent]

/-- C9 amended-theorem witness: at the all-timeout environment the entry
of the outcome has `dataCount` absent (status is not `success`) and, the
status being `error`, both `hasValidData` absent and `error` present. -/
theorem report_fields_track_status_witness :
    (optPresent (mkEntry (namedOf (testApiGo "k" "http:a" envTimeout 0 1).1 "n")).dataCount
      = ((testApiGo "k" "http:a" envTimeout 0 1).1.status == "success")) ∧
    ((testApiGo "k" "http:a" envTimeout 0 1).1.status ≠ "success" →
      truthPresent (mkEntry (namedOf (testApiGo "k" "http:a" envTimeout 0 1).1 "n")).hasValidData = false ∧
      ((mkEntry (namedOf (testApiGo "k" "http:a" envTimeout 0 1).1 "n")).error).isSome = true) :=
  report_fields_track_status "k" "http:a" envTimeout 1 0 "n"

/-! ## Aggregation theorems -/

/-- The three buckets partition any outcome list. -/
theorem filter_buckets_partition (l : List NamedResult) :
    (l.filter isSuccessful).length + (l.filter isNoData).length
      + (l.filter isFailed).length = l.length := by
  induction l with
  | nil => rfl
  | cons r t ih =>
    by_cases hs : r.status == "success"
    · by_cases hv : r.hasValidData.toBool
      · simp [List.filter, isSuccessful, isNoData, isFailed, hs, hv]
        omega
      · simp [List.filter, isSuccessful, isNoData, isFailed, hs, hv]
        omega
    · simp [List.filter, isSuccessful, isNoData, isFailed, hs]
      omega

/-- C6: in the emitted report the three buckets (successful, no-data,
failed) partition the outcome list:
`successCount + noDataCount + failedCount = totalApis` and
`totalApis` equals the length of the persisted `results` sequence (which
lists every outcome). -/
theorem report_counts_partition (testTime : String) (totalTime : Nat)
    (results : List NamedResult) :
    (buildReport testTime totalTime results).successCount
        + (buildReport testTime totalTime results).noDataCount
        + (buildReport testTime totalTime results).failedCount
      = (buildReport testTime totalTime results).totalApis ∧
    (buildReport testTime totalTime results).totalApis
      = (buildReport testTime totalTime results).results.length ∧
    (buildReport testTime totalTime results).totalApis = results.length := by
  refine ⟨?_, ?_, rfl⟩
  · simpa [buildReport] using filter_buckets_partition results
  · simp [buildReport]

/-- `insertByTime` only permutes. -/
theorem insertByTime_perm (x : NamedResult) (l : List NamedResult) :
    List.Perm (insertByTime x l) (x :: l) := by
  induction l with
  | nil => exact List.Perm.refl _
  | cons y ys ih =>
    by_cases h : x.time ≤ y.time
    · simp [insertByTime, h]
    · simp only [insertByTime, h, ite_false]
      exact ((ih.cons y).trans (List.Perm.swap x y ys))

/-- `sortByTime` only permutes. -/
theorem sortByTime_perm (l : List NamedResult) :
    List.Perm (sortByTime l) l := by
  induction l with
  | nil => exact List.Perm.refl _
  | cons y ys ih =>
    exact (insertByTime_perm y (sortByTime ys)).trans (ih.cons y)

/-- C7: producing the display-only latency ordering of the successful
bucket does not alter the sequence the report is built from — the
report's `results` is still the projection of the outcome list in
submission order — and the display list is merely a permutation of the
successful bucket. -/
theorem display_sort_preserves_results (testTime : String) (totalTime : Nat)
    (results : List NamedResult) :
    (aggregateAndDisplay testTime totalTime results).2.results
        = results.map mkEntry ∧
    List.Perm (aggregateAndDisplay testTime totalTime results).1
      (results.filter isSuccessful) :=
  ⟨rfl, sortByTime_perm (results.filter isSuccessful)⟩

/-! ## List helper lemmas for the scheduler proofs -/

theorem get?_set_self {α : Type} (l : List α) (i : Nat) (a : α) (h : i < l.length) :
    (l.set i a).get? i = some a := by
  induction l generalizing i with
  | nil => simp at h
  | cons x xs ih =>
    cases i with
    | zero => rfl
    | succ j => exact ih j (Nat.lt_of_succ_lt_succ h)

theorem get?_set_other {α : Type} (l : List α) (i j : Nat) (a : α) (h : i ≠ j) :
    (l.set i a).get? j = l.get? j := by
  induction l generalizing i j with
  | nil => rfl
  | cons x xs ih =>
    cases i with
    | zero =>
      cases j with
      | zero => exact absurd rfl h
      | succ j2 => rfl
    | succ i2 =>
      cases j with
      | zero => rfl
      | succ j2 => exact ih i2 j2 (fun hc => h (congrArg Nat.succ hc))

theorem get?_replicate_lt {α : Type} (a : α) (n i : Nat) (h : i < n) :
    (List.replicate n a).get? i = some a := by
  induction n generalizing i with
  | zero => simp at h
  | succ m ih =>
    cases i with
    | zero => rfl
    | succ j => exact ih j (Nat.lt_of_succ_lt_succ h)

theorem lt_of_get?_some {α : Type} (l : List α) (i : Nat) (x : α)
    (h : l.get? i = some x) : i < l.length := by
  induction l generalizing i with
  | nil => simp [List.get?] at h
  | cons y ys ih =>
    cases i with
    | zero => simp
    | succ j => exact Nat.succ_lt_succ (ih j h)

theorem get?_some_of_lt {α : Type} (l : List α) (i : Nat) (h : i < l.length) :
    ∃ x, l.get? i = some x := by
  induction l generalizing i with
  | nil => simp at h
  | cons y ys ih =>
    cases i with
    | zero => exact ⟨y, rfl⟩
    | succ j => exact ih j (Nat.lt_of_succ_lt_succ h)

theorem list_ext_get? {α : Type} : ∀ (l₁ l₂ : List α),
    (∀ i, l₁.get? i = l₂.get? i) → l₁ = l₂
  | [], [], _ => rfl
  | [], y :: ys, h => by simpa using h 0
  | x :: xs, [], h => by simpa using h 0
  | x :: xs, y :: ys, h => by
    have h0 := h 0
    simp only [List.get?] at h0
    have ht := list_ext_get? xs ys (fun i => h (i + 1))
    cases h0
    rw [ht]

theorem get?_map_comm {α β2 : Type} (f : α → β2) (l : List α) (i : Nat) :
    (l.map f).get? i = (l.get? i).map f := by
  induction l generalizing i with
  | nil => rfl
  | cons x xs ih =>
    cases i with
    | zero => rfl
    | succ j => exact ih j

/-! ## pickOut lemmas -/

theorem pickOut_perm {α : Type} : ∀ (l : List α) (k : Nat) (x : α) (rest : List α),
    pickOut l k = some (x, rest) → List.Perm (x :: rest) l := by
  intro l
  induction l with
  | nil => intro k x rest h; simp [pickOut] at h
  | cons y ys ih =>
    intro k x rest h
    cases k with
    | zero =>
      simp [pickOut] at h
      rw [h.1, h.2]
    | succ k2 =>
      simp only [pickOut] at h
      cases hp : pickOut ys k2 with
      | none => rw [hp] at h; simp at h
      | some pr =>
        rcases pr with ⟨z, zs⟩
        have hperm := ih k2 z zs hp
        rw [hp] at h
        simp only [Option.some.injEq, Prod.mk.injEq] at h
        rcases h with ⟨hx, hrest⟩
        subst hx
        subst hrest
        exact (List.Perm.swap y z zs).trans (hperm.cons y)

theorem pickOut_some_of_lt {α : Type} : ∀ (l : List α) (k : Nat), k < l.length →
    ∃ x rest, pickOut l k = some (x, rest) := by
  intro l
  induction l with
  | nil => intro k h; simp at h
  | cons y ys ih =>
    intro k h
    cases k with
    | zero => exact ⟨y, ys, rfl⟩
    | succ k2 =>
      obtain ⟨x, rest, hx⟩ := ih k2 (Nat.lt_of_succ_lt_succ h)
      exact ⟨x, y :: rest, by simp [pickOut, hx]⟩

/-! ## Settlement and invariant lemmas -/

/-- Case analysis of one settlement: on an empty in-flight set `complete`
is the identity; otherwise it removes one oracle-chosen task, resolves
its slot, and records the new in-flight count. -/
theorem complete_spec {β : Type} (p : Nat) (s : SimSt β) :
    (s.executing = [] ∧ complete p s = s) ∨
    (∃ x rest, pickOut s.executing (p % s.executing.length) = some (x, rest) ∧
      (complete p s).executing = rest ∧
      (complete p s).results = s.results.set x.1 (some x.2) ∧
      (complete p s).trace = s.trace ++ [rest.length] ∧
      rest.length + 1 = s.executing.length ∧
      List.Perm (x :: rest) s.executing) := by
  by_cases hex : s.executing = []
  · left
    refine ⟨hex, ?_⟩
    unfold complete
    rw [hex]
    simp [pickOut]
  · right
    have hpos : 0 < s.executing.length := List.length_pos.mpr hex
    have hlen : p % s.executing.length < s.executing.length := Nat.mod_lt _ hpos
    obtain ⟨x, rest, hpk⟩ := pickOut_some_of_lt s.executing _ hlen
    have hperm := pickOut_perm s.executing _ x rest hpk
    refine ⟨x, rest, hpk, ?_, ?_, ?_, ?_, hperm⟩
    · simp [complete, hpk]
    · simp [complete, hpk]
    · simp [complete, hpk]
    · have := hperm.length_eq
      simpa using this

/-- Invariant tying the in-flight-or-pending tasks (`active`) to the
result slots: slots are sized to the task list; every active pair holds
the value of its task and its slot is unresolved; active indices are
distinct; every unresolved slot belongs to an active pair; every resolved
slot holds the value of its task. -/
def Slot {β : Type} (outs : List β) (active : List (Nat × β))
    (res : List (Option β)) : Prop :=
  res.length = outs.length ∧
  (∀ p ∈ active, outs.get? p.1 = some p.2 ∧ res.get? p.1 = some none) ∧
  (active.map Prod.fst).Nodup ∧
  (∀ i, i < outs.length → res.get? i = some none → i ∈ active.map Prod.fst) ∧
  (∀ i w, res.get? i = some (some w) → outs.get? i = some w)

theorem slot_perm {β : Type} (outs : List β) (a₁ a₂ : List (Nat × β))
    (res : List (Option β)) (hp : List.Perm a₁ a₂) (h : Slot outs a₁ res) :
    Slot outs a₂ res := by
  obtain ⟨h1, h2, h3, h4, h5⟩ := h
  refine ⟨h1, ?_, ?_, ?_, h5⟩
  · intro q hq
    exact h2 q (hp.mem_iff.mpr hq)
  · exact ((hp.map Prod.fst).nodup_iff).mp h3
  · intro i hi hres
    exact (hp.map Prod.fst).mem_iff.mp (h4 i hi hres)

/-- Settling the head active pair resolves its slot and preserves the
invariant. -/
theorem slot_pop {β : Type} (outs : List β) (i : Nat) (v : β)
    (active : List (Nat × β)) (res : List (Option β))
    (h : Slot outs ((i, v) :: active) res) :
    Slot outs active (res.set i (some v)) := by
  obtain ⟨h1, h2, h3, h4, h5⟩ := h
  have hiv := h2 (i, v) (List.mem_cons_self _ _)
  have hilt : i < outs.length := lt_of_get?_some outs i v hiv.1
  have hireslt : i < res.length := by rw [h1]; exact hilt
  have hnotin : i ∉ active.map Prod.fst := by
    simp only [List.map, List.nodup_cons] at h3
    exact h3.1
  refine ⟨by rw [List.length_set]; exact h1, ?_, ?_, ?_, ?_⟩
  · intro q hq
    have hmem := h2 q (List.mem_cons_of_mem _ hq)
    have hne : i ≠ q.1 := by
      intro hc
      exact hnotin (hc ▸ List.mem_map_of_mem Prod.fst hq)
    rw [get?_set_other res i q.1 (some v) hne]
    exact hmem
  · simp only [List.map, List.nodup_cons] at h3
    exact h3.2
  · intro j hj hres
    have hne : i ≠ j := by
      intro hc
      subst hc
      rw [get?_set_self res i (some v) hireslt] at hres
      exact Option.noConfusion (Option.some.inj hres)
    rw [get?_set_other res i j (some v) hne] at hres
    have := h4 j hj hres
    simp only [List.map, List.mem_cons] at this
    rcases this with hji | hmem
    · exact absurd hji.symm hne
    · exact hmem
  · intro j w hres
    by_cases hij : i = j
    · subst hij
      rw [get?_set_self res i (some v) hireslt] at hres
      have hw : v = w := Option.some.inj (Option.some.inj hres)
      rw [← hw]
      exact hiv.1
    · rw [get?_set_other res i j (some v) hij] at hres
      exact h5 j w hres

/-- One settlement preserves the invariant (with the untouched pending
tasks carried along). -/
theorem slot_complete {β : Type} (outs : List β) (p : Nat)
    (pend : List (Nat × β)) (s : SimSt β)
    (h : Slot outs (s.executing ++ pend) s.results) :
    Slot outs ((complete p s).executing ++ pend) (complete p s).results := by
  rcases complete_spec p s with ⟨hnil, heq⟩ | ⟨x, rest, _, hex, hres, _, _, hperm⟩
  · rw [heq]
    exact h
  · rw [hex, hres]
    have hpermfull : List.Perm (s.executing ++ pend) (x :: (rest ++ pend)) := by
      have := hperm.append_right pend
      exact this.symm
    have hslot := slot_perm outs _ _ _ hpermfull h
    rcases x with ⟨i, v⟩
    exact slot_pop outs i v (rest ++ pend) s.results hslot

/-! ## Enumeration lemmas -/

theorem enumF_mem_get? {β : Type} : ∀ (l : List β) (k : Nat) (q : Nat × β),
    q ∈ enumF k l → k ≤ q.1 ∧ l.get? (q.1 - k) = some q.2 := by
  intro l
  induction l with
  | nil => intro k q h; simp [enumF] at h
  | cons x xs ih =>
    intro k q h
    simp only [enumF, List.mem_cons] at h
    rcases h with hq | hq
    · subst hq
      simp
    · obtain ⟨hk, hget⟩ := ih (k + 1) q hq
      refine ⟨Nat.le_of_succ_le hk, ?_⟩
      have hsub : q.1 - k = (q.1 - (k + 1)) + 1 := by omega
      rw [hsub]
      simpa using hget

theorem enumF_fst_nodup {β : Type} : ∀ (l : List β) (k : Nat),
    ((enumF k l).map Prod.fst).Nodup := by
  intro l
  induction l with
  | nil => intro k; simp [enumF]
  | cons x xs ih =>
    intro k
    simp only [enumF, List.map, List.nodup_cons]
    refine ⟨?_, ih (k + 1)⟩
    intro hmem
    obtain ⟨q, hq, hfst⟩ := List.mem_map.mp hmem
    have := (enumF_mem_get? xs (k + 1) q hq).1
    omega

theorem mem_enumF_fst {β : Type} : ∀ (l : List β) (k i : Nat),
    k ≤ i → i < k + l.length → i ∈ (enumF k l).map Prod.fst := by
  intro l
  induction l with
  | nil => intro k i h1 h2; simp at h2; omega
  | cons x xs ih =>
    intro k i h1 h2
    simp only [enumF, List.map, List.mem_cons]
    by_cases hik : i = k
    · exact Or.inl hik
    · right
      refine ih (k + 1) i (by omega) ?_
      simp only [List.length_cons] at h2
      omega

theorem enumF_length {β : Type} : ∀ (l : List β) (k : Nat),
    (enumF k l).length = l.length := by
  intro l
  induction l with
  | nil => intro k; rfl
  | cons x xs ih => intro k; simp [enumF, ih]

/-- The invariant holds initially: no slot resolved, all tasks pending. -/
theorem slot_init {β : Type} (outs : List β) :
    Slot outs (enumF 0 outs) (List.replicate outs.length none) := by
  refine ⟨List.length_replicate _ _, ?_, enumF_fst_nodup outs 0, ?_, ?_⟩
  · intro q hq
    have h := enumF_mem_get? outs 0 q hq
    have hlt : q.1 < outs.length := lt_of_get?_some outs q.1 q.2 (by simpa using h.2)
    refine ⟨by simpa using h.2, get?_replicate_lt none outs.length q.1 hlt⟩
  · intro i hi _
    exact mem_enumF_fst outs 0 i (Nat.zero_le _) (by simpa using hi)
  · intro i w hres
    have hlt : i < (List.replicate outs.length (none : Option β)).length :=
      lt_of_get?_some _ i (some w) hres
    rw [get?_replicate_lt none outs.length i (by simpa using hlt)] at hres
    exact absurd (Option.some.inj hres) (by simp)

/-- With nothing active, the invariant forces every slot to hold its
task's value. -/
theorem slot_final {β : Type} (outs : List β) (res : List (Option β))
    (h : Slot outs [] res) : res = outs.map some := by
  obtain ⟨h1, _, _, h4, h5⟩ := h
  refine list_ext_get? res (outs.map some) ?_
  intro i
  by_cases hi : i < outs.length
  · obtain ⟨x, hx⟩ := get?_some_of_lt res i (by rw [h1]; exact hi)
    cases x with
    | none =>
      have := h4 i hi hx
      simp at this
    | some w =>
      have hout := h5 i w hx
      rw [hx, get?_map_comm some outs i, hout]
      rfl
  · have hres : res.get? i = none := by
      apply List.get?_eq_none.mpr
      rw [h1]
      omega
    have houts : (outs.map some).get? i = none := by
      apply List.get?_eq_none.mpr
      rw [List.length_map]
      omega
    rw [hres, houts]

/-! ## Scheduler drain and loop lemmas -/

/-- Draining with fuel at least the in-flight count empties the in-flight
set and preserves the invariant. -/
theorem drain_slot {β : Type} (outs : List β) : ∀ (fuel : Nat) (oracle : List Nat)
    (s : SimSt β), s.executing.length ≤ fuel → Slot outs s.executing s.results →
    (drain fuel oracle s).executing = [] ∧
    Slot outs [] (drain fuel oracle s).results := by
  intro fuel
  induction fuel with
  | zero =>
    intro oracle s hle h
    have hnil : s.executing = [] := List.length_eq_zero.mp (Nat.le_zero.mp hle)
    rw [drain]
    exact ⟨hnil, hnil ▸ h⟩
  | succ f ih =>
    intro oracle s hle h
    rw [drain]
    rcases complete_spec (oracle.headD 0) s with ⟨hnil, heq⟩ | hspec
    · rw [heq]
      refine ih oracle.tail s ?_ h
      rw [hnil]
      exact Nat.zero_le _
    · obtain ⟨x, rest, _, hex, hres, _, hlen, hperm⟩ := hspec
      have hslot : Slot outs (s.executing ++ []) s.results := by simpa using h
      have hnew := slot_complete outs (oracle.headD 0) [] s hslot
      rw [hex, hres] at hnew
      simp only [List.append_nil] at hnew
      refine ih oracle.tail (complete (oracle.headD 0) s) ?_ ?_
      · rw [hex]
        omega
      · rw [hex, hres]
        exact hnew

/-- Running the dispatch loop from a state satisfying the invariant ends
with nothing in flight and the invariant closed. -/
theorem schedLoop_slot {β : Type} (outs : List β) (C : Nat) :
    ∀ (pend : List (Nat × β)) (oracle : List Nat) (s : SimSt β),
      Slot outs (s.executing ++ pend) s.results →
      (schedLoop C pend oracle s).executing = [] ∧
      Slot outs [] (schedLoop C pend oracle s).results := by
  intro pend
  induction pend with
  | nil =>
    intro oracle s h
    rw [schedLoop]
    exact drain_slot outs s.executing.length oracle s (Nat.le_refl _)
      (by simpa using h)
  | cons t rest ih =>
    intro oracle s h
    rw [schedLoop]
    have hdisp : Slot outs ((dispatch t s).executing ++ rest) (dispatch t s).results := by
      show Slot outs ((s.executing ++ [t]) ++ rest) s.results
      rw [List.append_assoc]
      simpa using h
    by_cases hC : C ≤ (dispatch t s).executing.length
    · simp only [hC, if_true]
      exact ih oracle.tail _ (slot_complete outs (oracle.headD 0) rest (dispatch t s) hdisp)
    · simp only [hC, if_false]
      exact ih oracle _ hdisp

/-- C5: the outcome sequence returned by `runWithConcurrency` is the task
sequence in original submission order — the i-th slot resolves to the
i-th submitted task's outcome — for every concurrency bound and every
completion order (oracle). -/
theorem runWithConcurrency_preserves_order {β : Type} (tasks : List β) (C : Nat)
    (oracle : List Nat) :
    runWithConcurrency tasks C oracle = tasks.map some := by
  have hinit : Slot tasks
      (({ executing := [], results := List.replicate tasks.length none,
          trace := [] } : SimSt β).executing ++ enumF 0 tasks)
      (List.replicate tasks.length none) := by
    simpa using slot_init tasks
  have h := schedLoop_slot tasks C (enumF 0 tasks) oracle _ hinit
  exact slot_final tasks _ h.2

/-- Draining never raises the recorded in-flight counts above `C` when
the in-flight set is within `C`. -/
theorem drain_trace {β : Type} (C : Nat) : ∀ (fuel : Nat) (oracle : List Nat)
    (s : SimSt β), s.executing.length ≤ C → (∀ x ∈ s.trace, x ≤ C) →
    ∀ x ∈ (drain fuel oracle s).trace, x ≤ C := by
  intro fuel
  induction fuel with
  | zero =>
    intro oracle s _ htr
    rw [drain]
    exact htr
  | succ f ih =>
    intro oracle s hle htr
    rw [drain]
    rcases complete_spec (oracle.headD 0) s with ⟨_, heq⟩ | hspec
    · rw [heq]
      exact ih oracle.tail s hle htr
    · obtain ⟨x, rest, _, hex, _, htr2, hlen, _⟩ := hspec
      refine ih oracle.tail _ ?_ ?_
      · rw [hex]
        omega
      · rw [htr2]
        intro y hy
        rcases List.mem_append.mp hy with hy | hy
        · exact htr y hy
        · simp only [List.mem_singleton] at hy
          omega

/-- The dispatch loop keeps every recorded in-flight count within `C`
when entered with strictly fewer than `C` in flight. -/
theorem schedLoop_trace {β : Type} (C : Nat) : ∀ (pend : List (Nat × β))
    (oracle : List Nat) (s : SimSt β),
    s.executing.length < C → (∀ x ∈ s.trace, x ≤ C) →
    ∀ x ∈ (schedLoop C pend oracle s).trace, x ≤ C := by
  intro pend
  induction pend with
  | nil =>
    intro oracle s hlt htr
    rw [schedLoop]
    exact drain_trace C s.executing.length oracle s (Nat.le_of_lt hlt) htr
  | cons t rest ih =>
    intro oracle s hlt htr
    rw [schedLoop]
    have hex1 : (dispatch t s).executing.length = s.executing.length + 1 := by
      simp [dispatch]
    have htr1 : ∀ x ∈ (dispatch t s).trace, x ≤ C := by
      intro y hy
      simp only [dispatch] at hy
      rcases List.mem_append.mp hy with hy | hy
      · exact htr y hy
      · simp only [List.mem_singleton] at hy
        omega
    by_cases hC : C ≤ (dispatch t s).executing.length
    · simp only [hC, if_true]
      rcases complete_spec (oracle.headD 0) (dispatch t s) with ⟨hnil, _⟩ | hspec
      · rw [hnil] at hex1
        simp at hex1
      · obtain ⟨x, r2, _, hex2, _, htr2, hlen2, _⟩ := hspec
        refine ih oracle.tail _ ?_ ?_
        · rw [hex2]
          omega
        · rw [htr2]
          intro y hy
          rcases List.mem_append.mp hy with hy | hy
          · exact htr1 y hy
          · simp only [List.mem_singleton] at hy
            omega
    · simp only [hC, if_false]
      refine ih oracle _ ?_ htr1
      omega

/-- C4: for every task list, every completion oracle and every
concurrency bound `C ≥ 1`, the number of simultaneously in-flight tasks —
recorded in the trace after every dispatch and every settlement — never
exceeds `C` during `runWithConcurrency`. -/
theorem schedRun_concurrency_bound {β : Type} (C : Nat) (tasks : List β)
    (oracle : List Nat) (hC : 1 ≤ C) :
    traceBounded C (schedRun C tasks oracle) = true := by
  rw [traceBounded, List.all_eq_true]
  intro x hx
  rw [decide_eq_true_eq]
  refine schedLoop_trace C (enumF 0 tasks) oracle _ ?_ ?_ x hx
  · simpa using hC
  · intro y hy
    simp at hy

/-- C4 witness: five tasks under concurrency bound 2 with an arbitrary
completion oracle keep every recorded in-flight count at most 2. -/
theorem schedRun_concurrency_bound_witness :
    1 ≤ 2 ∧ traceBounded 2 (schedRun 2 [10, 20, 30, 40, 50] [1, 0, 2]) = true :=
  ⟨by decide, @schedRun_concurrency_bound Nat 2 [10, 20, 30, 40, 50] [1, 0, 2] (by decide)⟩
